import Mathlib

/-!
Shallow embedding of the telemetry CSV analyzer (`src/analyze.py`).

A pandas `DataFrame` is modelled as an ordered list of column names
together with an ordered list of rows, each row being a list of cells
positionally aligned with the column list.  A cell is a raw string, a
numeric value (modelled as a rational), or the missing marker (pandas
`NaN`).  Column lookup finds the first column with the given name and
is total, returning the missing marker when the column is absent; the
pipeline theorems carry presence hypotheses at the points where the
Python code would raise a `KeyError` instead.
-/

namespace Telemetry

/-- A single cell of a telemetry table: a raw string, a numeric value
(rationals stand in for Python floats), or the missing marker (NaN). -/
inductive Cell where
  | str (s : String)
  | num (q : ℚ)
  | missing
deriving DecidableEq, Repr

/-- A pandas DataFrame: ordered column names plus ordered rows of cells,
rows positionally aligned with `cols`. -/
structure DataFrame where
  cols : List String
  rows : List (List Cell)
deriving DecidableEq, Repr

/-- `EXPECTED_COLUMNS` from `analyze.py`: the 18 required column names,
in declaration order. -/
def EXPECTED_COLUMNS : List String :=
  ["timestamp", "speed_kmh", "throttle_pct", "brake_pct", "regen_brake",
   "motor_rpm", "battery_voltage", "battery_current", "battery_soc_pct",
   "battery_temp_c", "motor_temp_c", "inverter_temp_c", "cabin_temp_c",
   "odometer_km", "power_kw", "energy_used_kw", "event_type",
   "event_description"]

/-- `COLUMN_ALIASES` from `analyze.py`: the known header typo mapped to
its canonical name. -/
def COLUMN_ALIASES : List (String × String) :=
  [("event_descirption", "event_description")]

/-- `THRESHOLDS` from `analyze.py`, as an ordered association list: the
Python dict iterates in insertion order, and so do the per-column limit
dicts (max before min for `cabin_temp_c`). -/
def THRESHOLDS : List (String × List (String × ℚ)) :=
  [("speed_kmh", [("max", 120)]),
   ("battery_temp_c", [("max", 50)]),
   ("motor_temp_c", [("max", 90)]),
   ("inverter_temp_c", [("max", 75)]),
   ("battery_soc_pct", [("min", 15)]),
   ("cabin_temp_c", [("max", 40), ("min", 5)])]

/-- `NUMERIC_COLUMNS` from `analyze.py`: the 15 columns coerced to
floats, in declaration order. -/
def NUMERIC_COLUMNS : List String :=
  ["speed_kmh", "throttle_pct", "brake_pct", "regen_brake", "motor_rpm",
   "battery_voltage", "battery_current", "battery_soc_pct",
   "battery_temp_c", "motor_temp_c", "inverter_temp_c", "cabin_temp_c",
   "odometer_km", "power_kw", "energy_used_kw"]

/-- Cell of row `i`, column `col` (`df.at[i, col]`).  Total: missing when
the row or column is absent; the code raises `KeyError` on an absent
column, and theorems that depend on that cell carry a presence
hypothesis. -/
def dfCell (df : DataFrame) (i : Nat) (col : String) : Cell :=
  (df.rows.getD i []).getD (df.cols.indexOf col) Cell.missing

/-- The column series `df[col]`: original row indices paired with the
cells of column `col`, in row order. -/
def getSeries (df : DataFrame) (col : String) : List (Nat × Cell) :=
  (List.range df.rows.length).map (fun i => (i, dfCell df i col))

/-- Numeric value of a digit string (helper for `parseNumString`). -/
def digitsNat (cs : List Char) : Nat :=
  cs.foldl (fun n c => 10 * n + (c.toNat - 48)) 0

/-- Parse a decimal literal (optional sign, digits, optional fractional
part), modelling the parse performed by `pd.to_numeric`; `none` for an
unparseable string. -/
def parseNumString (s : String) : Option ℚ :=
  let cs := s.trim.toList
  let signBody : ℚ × List Char :=
    match cs with
    | '-' :: rest => (-1, rest)
    | '+' :: rest => (1, rest)
    | _ => (1, cs)
  let sign := signBody.1
  let body := signBody.2
  let intPart := body.takeWhile Char.isDigit
  let rest := body.dropWhile Char.isDigit
  match rest with
  | [] => if intPart.isEmpty then none else some (sign * digitsNat intPart)
  | '.' :: fracPart =>
    if fracPart.all Char.isDigit && (!intPart.isEmpty || !fracPart.isEmpty) then
      some (sign * ((digitsNat intPart : ℚ) +
        (digitsNat fracPart : ℚ) / 10 ^ fracPart.length))
    else none
  | _ => none

/-- `pd.to_numeric(·, errors="coerce")` on one cell: numbers pass
through, parseable strings become numbers, everything else degrades to
missing. -/
def toNumericCell : Cell → Cell
  | Cell.num q => Cell.num q
  | Cell.missing => Cell.missing
  | Cell.str s =>
    match parseNumString s with
    | some q => Cell.num q
    | none => Cell.missing

/-- `out[col] = pd.to_numeric(out[col], errors="coerce")` for one column
(no-op when the column is absent, matching the `continue`). -/
def coerceCol (df : DataFrame) (col : String) : DataFrame :=
  if col ∈ df.cols then
    { cols := df.cols,
      rows := df.rows.map (fun row =>
        row.set (df.cols.indexOf col)
          (toNumericCell (row.getD (df.cols.indexOf col) Cell.missing))) }
  else df

/-- `coerce_numeric` from `analyze.py`: coerce every numeric column of a
copy of the table, leaving the rest untouched. -/
def coerce_numeric (df : DataFrame) : DataFrame :=
  NUMERIC_COLUMNS.foldl coerceCol df

/-- True for cells that are a number or missing — what every cell of a
coerced numeric column looks like. -/
def isNumOrMissing : Cell → Bool
  | Cell.str _ => false
  | _ => true

/-- Column `col` of `df` holds only numeric or missing cells (the state
`coerce_numeric` leaves every present numeric column in). -/
def CoercedCol (df : DataFrame) (col : String) : Prop :=
  ∀ i < df.rows.length, isNumOrMissing (dfCell df i col) = true

/-- Every numeric column of `df` is coerced: the shape of any table that
has passed the `coerce_numeric` stage of the pipeline. -/
def Coerced (df : DataFrame) : Prop :=
  ∀ col ∈ NUMERIC_COLUMNS, CoercedCol df col

instance (df : DataFrame) (col : String) : Decidable (CoercedCol df col) := by
  unfold CoercedCol; infer_instance

instance (df : DataFrame) : Decidable (Coerced df) := by
  unfold Coerced; infer_instance

/-- `series.dropna()` on a coerced column, reading off the numeric
values: keeps (row index, value) for every numeric cell.  On a coerced
column the non-numeric cells are exactly the missing ones, so this is
precisely pandas' `dropna`. -/
def numEntries (s : List (Nat × Cell)) : List (Nat × ℚ) :=
  s.filterMap (fun p =>
    match p.2 with
    | Cell.num q => some (p.1, q)
    | _ => none)

/-- Python's `round(q, 2)`: rounding to 2 decimal places (ties round
half-up in this model; the spec leaves the tie policy open). -/
def round2 (q : ℚ) : ℚ := ((⌊q * 100 + 1 / 2⌋ : ℤ) : ℚ) / 100

/-- `s.mean()`: sum divided by length. -/
def listMean (l : List ℚ) : ℚ := l.sum / l.length

/-- `s.max()` of a series (0 on the empty list, which the callers rule
out). -/
def listMax : List ℚ → ℚ
  | [] => 0
  | x :: xs => xs.foldl max x

/-- `s.min()` of a series (0 on the empty list, which the callers rule
out). -/
def listMin : List ℚ → ℚ
  | [] => 0
  | x :: xs => xs.foldl min x

/-- The record returned by `build_speed_stats`. -/
structure SpeedStats where
  mean_kmh : Option ℚ
  max_kmh : Option ℚ
  min_kmh : Option ℚ
  count : Nat
deriving DecidableEq, Repr

/-- `build_speed_stats` from `analyze.py`.  `none` models the `KeyError`
raised by `df["speed_kmh"]` when the column is absent; otherwise drop
missing values and return the all-null/0 record or the rounded
mean/max/min and the count. -/
def build_speed_stats (df : DataFrame) : Option SpeedStats :=
  if "speed_kmh" ∈ df.cols then
    let s := numEntries (getSeries df "speed_kmh")
    if s.isEmpty then
      some { mean_kmh := none, max_kmh := none, min_kmh := none, count := 0 }
    else
      some { mean_kmh := some (round2 (listMean (s.map Prod.snd))),
             max_kmh := some (round2 (listMax (s.map Prod.snd))),
             min_kmh := some (round2 (listMin (s.map Prod.snd))),
             count := s.length }
  else none

/-- `str(value).upper()` on a cell: `astype(str)` renders NaN as
`"nan"`; the numeric rendering detail is irrelevant because only
equality with `"WARNING"` is ever tested. -/
def cellToString : Cell → String
  | Cell.str s => s
  | Cell.num q => toString q
  | Cell.missing => "nan"

/-- Python's `str.upper()`, character-wise. -/
def upperStr (s : String) : String :=
  String.mk (s.data.map Char.toUpper)

/-- The mask `df["event_type"].astype(str).str.upper() == "WARNING"`
at row `i`. -/
def warnMask (df : DataFrame) (i : Nat) : Bool :=
  upperStr (cellToString (dfCell df i "event_type")) == "WARNING"

/-- Projection `df.loc[i, ["timestamp", "event_type",
"event_description"]]` of row `i`. -/
def warnRow (df : DataFrame) (i : Nat) : List Cell :=
  [dfCell df i "timestamp", dfCell df i "event_type",
   dfCell df i "event_description"]

/-- `drop_duplicates()` with an accumulator of already-seen elements:
keeps the first occurrence of each element, in first-seen order. -/
def dedupFirstAux {α : Type} [DecidableEq α] (seen : List α) :
    List α → List α
  | [] => []
  | x :: xs =>
    if x ∈ seen then dedupFirstAux seen xs
    else x :: dedupFirstAux (x :: seen) xs

/-- pandas `drop_duplicates()` (default `keep="first"`). -/
def dedupFirst {α : Type} [DecidableEq α] (l : List α) : List α :=
  dedupFirstAux [] l

/-- Position of the first occurrence of `x` in `l` (length of `l` when
absent); used to state first-seen ordering. -/
def firstIdx {α : Type} [DecidableEq α] : List α → α → Nat
  | [], _ => 0
  | y :: ys, x => if y = x then 0 else firstIdx ys x + 1

/-- The frame `df.loc[mask, ["timestamp", "event_type",
"event_description"]]` before deduplication: the projections of the
qualifying rows, in original row order. -/
def warnCandidates (df : DataFrame) : List (List Cell) :=
  ((List.range df.rows.length).filter (fun i => warnMask df i)).map
    (fun i => warnRow df i)

/-- `get_warnings` from `analyze.py`: empty frame when `event_type` is
absent; otherwise select the rows whose upper-cased event type equals
"WARNING", project the three columns, and drop duplicate rows keeping
the first occurrence. -/
def get_warnings (df : DataFrame) : DataFrame :=
  if "event_type" ∈ df.cols then
    { cols := ["timestamp", "event_type", "event_description"],
      rows := dedupFirst (warnCandidates df) }
  else { cols := [], rows := [] }

/-- One breach dict appended by `get_threshold_breaches`. -/
structure Breach where
  timestamp : Cell
  column : String
  value : ℚ
  limit_type : String
  limit_value : ℚ
deriving DecidableEq, Repr

/-- The breach dict built for entry `p = (row index, value)` of column
`col` against bound `lt = lv`. -/
def mkBreach (df : DataFrame) (col : String) (lt : String) (lv : ℚ)
    (p : Nat × ℚ) : Breach :=
  { timestamp := dfCell df p.1 "timestamp", column := col, value := p.2,
    limit_type := lt, limit_value := lv }

/-- The comparison `series > limit_value` (for `"max"`) or
`series < limit_value` (otherwise) on one value. -/
def boundHit (lt : String) (lv q : ℚ) : Bool :=
  if lt = "max" then decide (lv < q) else decide (q < lv)

/-- The inner `for idx in series.index[over]` loop: one breach per
entry of the dropna'd series that violates the bound, in ascending
original row order. -/
def boundBreaches (df : DataFrame) (col : String)
    (entries : List (Nat × ℚ)) (lt : String) (lv : ℚ) : List Breach :=
  (entries.filter (fun p => boundHit lt lv p.2)).map (mkBreach df col lt lv)

/-- The body of the outer loop for one `THRESHOLDS` entry: skip absent
columns, drop missing values, skip empty series, then iterate the
column's limits in declaration order. -/
def colBreaches (df : DataFrame) (col : String)
    (limits : List (String × ℚ)) : List Breach :=
  if col ∈ df.cols then
    let entries := numEntries (getSeries df col)
    if entries.isEmpty then []
    else limits.foldl (fun acc p => acc ++ boundBreaches df col entries p.1 p.2) []
  else []

/-- `get_threshold_breaches` from `analyze.py`: iterate `THRESHOLDS` in
declaration order, appending each column's breaches. -/
def get_threshold_breaches (df : DataFrame) : List Breach :=
  THRESHOLDS.foldl (fun acc p => acc ++ colBreaches df p.1 p.2) []

/-- One row of the frame built by `numeric_summary_table`. -/
structure SummaryRow where
  column : String
  mean : ℚ
  max : ℚ
  min : ℚ
deriving DecidableEq, Repr

/-- `numeric_summary_table` from `analyze.py`: one summary row per
numeric column (in `NUMERIC_COLUMNS` order) that is present and has at
least one non-missing value. -/
def numeric_summary_table (df : DataFrame) : List SummaryRow :=
  NUMERIC_COLUMNS.filterMap (fun col =>
    if col ∈ df.cols then
      let s := numEntries (getSeries df col)
      if s.isEmpty then none
      else some { column := col,
                  mean := round2 (listMean (s.map Prod.snd)),
                  max := round2 (listMax (s.map Prod.snd)),
                  min := round2 (listMin (s.map Prod.snd)) }
    else none)

/-- The content of the `ValueError` raised by `validate_columns`: its
message interpolates exactly these two lists (the missing required
columns and the columns actually found). -/
structure ValidationError where
  missing : List String
  found : List String
deriving DecidableEq, Repr

/-- `validate_columns` from `analyze.py`: collect the required columns
absent from the table, in `EXPECTED_COLUMNS` order, and fail when any
are missing. -/
def validate_columns (df : DataFrame) : Except ValidationError Unit :=
  let missing := EXPECTED_COLUMNS.filter (fun c => decide (c ∉ df.cols))
  if missing.isEmpty then Except.ok ()
  else Except.error { missing := missing, found := df.cols }

/-- The alias-normalization step of `load_csv`: rename every column
whose name is a known typo to its canonical name (data unchanged). -/
def load_normalize (df : DataFrame) : DataFrame :=
  let rename := COLUMN_ALIASES.filter (fun p => decide (p.1 ∈ df.cols))
  if rename.isEmpty then df
  else { cols := df.cols.map (fun c => ((rename.lookup c).getD c)),
         rows := df.rows }

/-- The analysis results handed to `write_report` when the run reaches
the report-writing step. -/
structure Report where
  speed_stats : SpeedStats
  warnings : DataFrame
  breaches : List Breach
  numeric_summary : List SummaryRow
deriving DecidableEq, Repr

/-- The all-null speed-stats record (placeholder for the unreachable
`KeyError` branch of `build_speed_stats` after validation). -/
def defaultSpeedStats : SpeedStats :=
  { mean_kmh := none, max_kmh := none, min_kmh := none, count := 0 }

/-- Rectangularity: every row has exactly one cell per column.  Holds
for every table pandas materializes from a CSV. -/
def Wf (df : DataFrame) : Prop :=
  ∀ row ∈ df.rows, row.length = df.cols.length

instance (df : DataFrame) : Decidable (Wf df) := by
  unfold Wf; infer_instance

/-- The numeric value stored at row `i`, column `col` (0 when the cell
is not numeric; only used where the cell is known to be numeric). -/
def cellVal (df : DataFrame) (i : Nat) (col : String) : ℚ :=
  match dfCell df i col with
  | Cell.num q => q
  | _ => 0

/-- Row `i` holds a non-missing value in `col` that violates the bound
`lt = lv`. -/
def cellHit (df : DataFrame) (col lt : String) (lv : ℚ) (i : Nat) : Bool :=
  match dfCell df i col with
  | Cell.num q => boundHit lt lv q
  | _ => false

/-- Spec-side: the rows breaching bound `lt = lv` of column `col`, in
ascending original row order ("compute the set of rows where value >
max or value < min"). -/
def specBoundRows (df : DataFrame) (col lt : String) (lv : ℚ) : List Nat :=
  (List.range df.rows.length).filter (fun i => cellHit df col lt lv i)

/-- Spec-side rendering of the Breach Record ordering sentence: iterate
the Threshold Table in declaration order (skipping absent columns),
within a column iterate the bounds in declaration order, within a bound
the breaching rows ascend; each record is tagged with its (column
position, bound position, row index) triple. -/
def specOrderedBreaches (df : DataFrame) :
    List ((Nat × Nat × Nat) × Breach) :=
  THRESHOLDS.enum.flatMap (fun ce =>
    if ce.2.1 ∈ df.cols then
      ce.2.2.enum.flatMap (fun be =>
        (specBoundRows df ce.2.1 be.2.1 be.2.2).map (fun ri =>
          ((ce.1, be.1, ri),
           mkBreach df ce.2.1 be.2.1 be.2.2 (ri, cellVal df ri ce.2.1))))
    else [])

/-- Strict lexicographic order on (column position, bound position,
row index) tags. -/
def tripLt (a b : Nat × Nat × Nat) : Prop :=
  a.1 < b.1 ∨ (a.1 = b.1 ∧ (a.2.1 < b.2.1 ∨ (a.2.1 = b.2.1 ∧ a.2.2 < b.2.2)))

/-- Spec-side: the input table with one column header relabelled and the
data untouched — "two CSVs identical except for one header". -/
def relabelCols (df : DataFrame) (oldName newName : String) : DataFrame :=
  { cols := df.cols.map (fun c => if c = oldName then newName else c),
    rows := df.rows }

/-- The post-load portion of `main`: validate, and on success coerce and
compute the four analysis results; on failure the run aborts and no
report is produced. -/
def runPipeline (df : DataFrame) : Except ValidationError Report :=
  match validate_columns df with
  | Except.error e => Except.error e
  | Except.ok _ =>
    let c := coerce_numeric df
    Except.ok { speed_stats := (build_speed_stats c).getD defaultSpeedStats,
                warnings := get_warnings c,
                breaches := get_threshold_breaches c,
                numeric_summary := numeric_summary_table c }

/-- Example row: all 18 columns, numeric columns already numeric (the
shape `coerce_numeric` produces), speed 130, cabin 3, a WARNING event. -/
def exRow0 : List Cell :=
  [Cell.str "t0", Cell.num 130, Cell.num 10, Cell.num 0, Cell.num 0,
   Cell.num 3000, Cell.num 400, Cell.num 10, Cell.num 50, Cell.num 30,
   Cell.num 60, Cell.num 50, Cell.num 3, Cell.num 1000, Cell.num 20,
   Cell.num 5, Cell.str "WARNING", Cell.str "overheat"]

/-- Example row: speed 110, one missing throttle cell, motor temp 95,
low state of charge, an INFO event. -/
def exRow1 : List Cell :=
  [Cell.str "t1", Cell.num 110, Cell.missing, Cell.num 0, Cell.num 0,
   Cell.num 3000, Cell.num 400, Cell.num 10, Cell.num 10, Cell.num 30,
   Cell.num 95, Cell.num 50, Cell.num 22, Cell.num 1000, Cell.num 20,
   Cell.num 5, Cell.str "INFO", Cell.str "ok"]

/-- Example coerced telemetry table with the full required schema. -/
def exTable : DataFrame :=
  { cols := EXPECTED_COLUMNS, rows := [exRow0, exRow1] }

/-- Example table missing 17 of the 18 required columns. -/
def exBare : DataFrame :=
  { cols := ["timestamp"], rows := [] }

/-- Example three-column table with a single WARNING row. -/
def exWarnTable : DataFrame :=
  { cols := ["timestamp", "event_type", "event_description"],
    rows := [[Cell.str "t0", Cell.str "WARNING", Cell.str "overheat"]] }

instance (a b : Nat × Nat × Nat) : Decidable (tripLt a b) := by
  unfold tripLt; infer_instance

/-- Appending-fold over a list is concatenation of the per-element
lists. -/
theorem foldl_append_eq_flatMap {α β : Type} (f : α → List β)
    (l : List α) :
    ∀ acc : List β, l.foldl (fun acc a => acc ++ f a) acc = acc ++ l.flatMap f := by
  induction l with
  | nil => intro acc; simp
  | cons x xs ih => intro acc; simp [ih, List.append_assoc]

/-- The breach accumulator loop is the concatenation of the per-column
breach lists, in `THRESHOLDS` order. -/
theorem get_threshold_breaches_eq_flatMap (df : DataFrame) :
    get_threshold_breaches df =
      THRESHOLDS.flatMap (fun p => colBreaches df p.1 p.2) := by
  unfold get_threshold_breaches
  simpa using foldl_append_eq_flatMap (fun p => colBreaches df p.1 p.2) THRESHOLDS []

/-- The per-column loop body is the concatenation over the column's
limits (and the early-exit on an empty dropna'd series changes
nothing, since an empty series breaches no bound). -/
theorem colBreaches_eq (df : DataFrame) (col : String)
    (limits : List (String × ℚ)) :
    colBreaches df col limits =
      if col ∈ df.cols then
        limits.flatMap (fun b =>
          boundBreaches df col (numEntries (getSeries df col)) b.1 b.2)
      else [] := by
  unfold colBreaches
  by_cases h : col ∈ df.cols
  · simp only [h, if_true]
    by_cases he : (numEntries (getSeries df col)).isEmpty
    · have hnil : numEntries (getSeries df col) = [] := by
        simpa using he
      simp [he, hnil, boundBreaches]
    · simp only [he, if_neg, Bool.false_eq_true, not_false_iff, if_false]
      simpa using foldl_append_eq_flatMap
        (fun b => boundBreaches df col (numEntries (getSeries df col)) b.1 b.2)
        limits []
  · simp [h]

/-- Every breach generated for a bound of column `col` carries `col` as
its column name. -/
theorem mem_boundBreaches_column (df : DataFrame) (col : String)
    (entries : List (Nat × ℚ)) (lt : String) (lv : ℚ) :
    ∀ b ∈ boundBreaches df col entries lt lv, b.column = col := by
  intro b hb
  unfold boundBreaches at hb
  rcases List.mem_map.mp hb with ⟨p, _, rfl⟩
  rfl

/-- Every breach generated by the loop body for column `col` carries
`col` as its column name. -/
theorem mem_colBreaches_column (df : DataFrame) (col : String)
    (limits : List (String × ℚ)) :
    ∀ b ∈ colBreaches df col limits, b.column = col := by
  intro b hb
  rw [colBreaches_eq] at hb
  by_cases h : col ∈ df.cols
  · rw [if_pos h] at hb
    rcases List.mem_flatMap.mp hb with ⟨q, _, hb2⟩
    exact mem_boundBreaches_column df col _ q.1 q.2 b hb2
  · rw [if_neg h] at hb
    exact absurd hb (List.not_mem_nil b)

/-- Breaches of a different column never survive a filter on `col`. -/
theorem filter_colBreaches_of_ne (df : DataFrame) (c' col : String)
    (limits' : List (String × ℚ)) (h : c' ≠ col) :
    (colBreaches df c' limits').filter (fun b => b.column == col) = [] := by
  rw [List.filter_eq_nil_iff]
  intro b hb
  rw [mem_colBreaches_column df c' limits' b hb]
  simp [h]

/-- Breaches of `col` all survive a filter on `col`. -/
theorem filter_colBreaches_self (df : DataFrame) (col : String)
    (limits : List (String × ℚ)) :
    (colBreaches df col limits).filter (fun b => b.column == col) =
      colBreaches df col limits := by
  rw [List.filter_eq_self]
  intro b hb
  simp [mem_colBreaches_column df col limits b hb]

/-- Filtering the full breach list on a thresholded column yields
exactly that column's contribution. -/
theorem breaches_filter_column (df : DataFrame) (col : String)
    (limits : List (String × ℚ)) (hmem : (col, limits) ∈ THRESHOLDS) :
    (get_threshold_breaches df).filter (fun b => b.column == col) =
      colBreaches df col limits := by
  rw [get_threshold_breaches_eq_flatMap]
  simp only [THRESHOLDS] at hmem
  fin_cases hmem <;>
    simp +decide only [THRESHOLDS, List.flatMap_cons, List.flatMap_nil,
      List.append_nil, List.filter_append, filter_colBreaches_self,
      filter_colBreaches_of_ne, List.nil_append, List.append_assoc]

/-- C1: for a coerced table and a thresholded column whose only bound is
a max of `V`, the breach records emitted for that column are exactly one
record per row holding a non-missing value strictly greater than `V`
(in row order, built by `mkBreach`), and no record for any row whose
value is missing or at most `V` — the right-hand side ranges precisely
over the non-missing entries exceeding `V`. -/
theorem max_only_breach_per_row (df : DataFrame) (col : String) (V : ℚ)
    (hC : Coerced df) (hcol : col ∈ df.cols)
    (hmem : (col, [("max", V)]) ∈ THRESHOLDS) :
    (get_threshold_breaches df).filter (fun b => b.column == col) =
      ((numEntries (getSeries df col)).filter (fun p => decide (V < p.2))).map
        (mkBreach df col "max" V) := by
  rw [breaches_filter_column df col [("max", V)] hmem, colBreaches_eq,
    if_pos hcol]
  simp [boundBreaches, boundHit]

/-- Witness for C1: `exTable` is coerced and has a `speed_kmh` column
with max bound 120; the theorem instantiates there. -/
theorem max_only_breach_per_row_witness :
    Coerced exTable ∧
    (get_threshold_breaches exTable).filter (fun b => b.column == "speed_kmh") =
      ((numEntries (getSeries exTable "speed_kmh")).filter
        (fun p => decide ((120 : ℚ) < p.2))).map
        (mkBreach exTable "speed_kmh" "max" 120) :=
  ⟨by decide,
   max_only_breach_per_row exTable "speed_kmh" 120 (by decide) (by decide)
     (by decide)⟩

/-- C7: schema validation fails exactly when one of the 18 required
columns is absent; the error carries exactly the missing required
columns and the full list of columns actually found, and the pipeline
terminates with that error, producing no report. -/
theorem validation_spec (df : DataFrame) :
    EXPECTED_COLUMNS.length = 18 ∧
    ((∃ e, validate_columns df = Except.error e) ↔
      ∃ c ∈ EXPECTED_COLUMNS, c ∉ df.cols) ∧
    (∀ e, validate_columns df = Except.error e →
      (∀ c, c ∈ e.missing ↔ (c ∈ EXPECTED_COLUMNS ∧ c ∉ df.cols)) ∧
      e.found = df.cols ∧
      runPipeline df = Except.error e) := by
  refine ⟨by decide, ?_, ?_⟩
  · constructor
    · rintro ⟨e, he⟩
      unfold validate_columns at he
      by_cases hm : (EXPECTED_COLUMNS.filter (fun c => decide (c ∉ df.cols))).isEmpty
      · rw [if_pos hm] at he
        exact absurd he (by simp)
      · have hne : EXPECTED_COLUMNS.filter (fun c => decide (c ∉ df.cols)) ≠ [] := by
          simpa [List.isEmpty_iff] using hm
        rcases List.exists_mem_of_ne_nil _ hne with ⟨c, hc⟩
        rcases List.mem_filter.mp hc with ⟨hc1, hc2⟩
        exact ⟨c, hc1, by simpa using hc2⟩
    · rintro ⟨c, hc, hnc⟩
      unfold validate_columns
      have hcf : c ∈ EXPECTED_COLUMNS.filter (fun c => decide (c ∉ df.cols)) :=
        List.mem_filter.mpr ⟨hc, by simpa using hnc⟩
      have hm : (EXPECTED_COLUMNS.filter (fun c => decide (c ∉ df.cols))).isEmpty = false := by
        rcases h : (EXPECTED_COLUMNS.filter (fun c => decide (c ∉ df.cols))) with _ | ⟨x, xs⟩
        · rw [h] at hcf; exact absurd hcf (List.not_mem_nil c)
        · rfl
      exact ⟨ValidationError.mk
          (EXPECTED_COLUMNS.filter (fun c => decide (c ∉ df.cols))) df.cols,
        by simp [validate_columns, hm]; exact ⟨c, hc, hnc⟩⟩
  · intro e he
    unfold validate_columns at he
    by_cases hm : (EXPECTED_COLUMNS.filter (fun c => decide (c ∉ df.cols))).isEmpty
    · rw [if_pos hm] at he
      exact absurd he (by simp)
    · rw [if_neg hm] at he
      have he' : e = ValidationError.mk
          (EXPECTED_COLUMNS.filter (fun c => decide (c ∉ df.cols))) df.cols := by
        cases he
        rfl
      refine ⟨?_, ?_, ?_⟩
      · intro c
        subst he'
        simp
      · subst he'
        rfl
      · unfold runPipeline validate_columns
        rw [if_neg hm]
        subst he'
        rfl

/-- Witness for C7: `exBare` is missing 17 required columns; the
validation error for it is as described, and `exTable` shows the
failure direction of the iff. -/
theorem validation_spec_witness :
    (∃ e, validate_columns exBare = Except.error e) ∧
    (∀ e, validate_columns exBare = Except.error e →
      (∀ c, c ∈ e.missing ↔ (c ∈ EXPECTED_COLUMNS ∧ c ∉ exBare.cols)) ∧
      e.found = exBare.cols ∧
      runPipeline exBare = Except.error e) :=
  ⟨(validation_spec exBare).2.1.mpr ⟨"speed_kmh", by decide, by decide⟩,
   (validation_spec exBare).2.2⟩

/-- Counterexample to C6 as stated: on a table with one WARNING row,
`get_warnings` returns a non-empty frame whose records carry an
`event_type` field in addition to timestamp and event-description, so a
record does not contain "only the timestamp and event-description
fields". -/
theorem warnings_fields_counterexample :
    (get_warnings exWarnTable).rows.length = 1 ∧
    (get_warnings exWarnTable).cols =
      ["timestamp", "event_type", "event_description"] ∧
    (get_warnings exWarnTable).cols ≠ ["timestamp", "event_description"] := by
  decide

/-- C6 (amended): each record returned by `get_warnings` contains
exactly the timestamp, event-type and event-description fields (in that
order) whenever the `event_type` column is present, and the frame is
completely empty otherwise. -/
theorem warnings_fields (df : DataFrame) :
    ("event_type" ∈ df.cols →
      (get_warnings df).cols =
        ["timestamp", "event_type", "event_description"] ∧
      ∀ r ∈ (get_warnings df).rows, r.length = 3) ∧
    ("event_type" ∉ df.cols →
      (get_warnings df).cols = [] ∧ (get_warnings df).rows = []) := by
  constructor
  · intro h
    unfold get_warnings
    rw [if_pos h]
    refine ⟨rfl, ?_⟩
    intro r hr
    simp only at hr
    have hsub : dedupFirst (warnCandidates df) ⊆ warnCandidates df := by
      intro x hx
      have : ∀ (seen l : List (List Cell)) (x : List Cell),
          x ∈ dedupFirstAux seen l → x ∈ l := by
        intro seen l
        induction l generalizing seen with
        | nil => intro x hx; exact absurd hx (List.not_mem_nil x)
        | cons y ys ih =>
          intro x hx
          unfold dedupFirstAux at hx
          by_cases hy : y ∈ seen
          · rw [if_pos hy] at hx
            exact List.mem_cons_of_mem y (ih seen x hx)
          · rw [if_neg hy] at hx
            rcases List.mem_cons.mp hx with h1 | h2
            · exact h1 ▸ List.mem_cons_self y ys
            · exact List.mem_cons_of_mem y (ih (y :: seen) x h2)
      exact this [] (warnCandidates df) x hx
    rcases List.mem_map.mp (hsub hr) with ⟨i, _, rfl⟩
    rfl
  · intro h
    unfold get_warnings
    rw [if_neg h]
    exact ⟨rfl, rfl⟩

/-- Witness for C6 (amended): instantiated at the example tables. -/
theorem warnings_fields_witness :
    ((get_warnings exTable).cols =
        ["timestamp", "event_type", "event_description"] ∧
      ∀ r ∈ (get_warnings exTable).rows, r.length = 3) ∧
    ((get_warnings exBare).cols = [] ∧ (get_warnings exBare).rows = []) :=
  ⟨(warnings_fields exTable).1 (by decide),
   (warnings_fields exBare).2 (by decide)⟩

/-- C8: a table whose `event_description` header is replaced by the
typo `event_descirption` (data identical) normalizes back to the
original table at load time, so both tables validate successfully and
produce identical Warnings output. -/
theorem alias_equivalence (df : DataFrame)
    (htypo : "event_descirption" ∉ df.cols)
    (hcols : ∀ c ∈ EXPECTED_COLUMNS, c ∈ df.cols) :
    load_normalize (relabelCols df "event_description" "event_descirption") = df ∧
    load_normalize df = df ∧
    validate_columns
      (load_normalize (relabelCols df "event_description" "event_descirption")) =
      Except.ok () ∧
    validate_columns (load_normalize df) = Except.ok () ∧
    get_warnings (coerce_numeric
      (load_normalize (relabelCols df "event_description" "event_descirption"))) =
      get_warnings (coerce_numeric (load_normalize df)) := by
  have hed : "event_description" ∈ df.cols := hcols _ (by decide)
  have h1 : load_normalize df = df := by
    unfold load_normalize
    have hf : COLUMN_ALIASES.filter (fun p => decide (p.1 ∈ df.cols)) = [] := by
      simp [COLUMN_ALIASES, htypo]
    rw [hf]
    rfl
  have hmem : ("event_descirption" : String) ∈
      (relabelCols df "event_description" "event_descirption").cols := by
    exact List.mem_map.mpr ⟨"event_description", hed, by simp⟩
  have hpoint : ∀ c ∈ df.cols,
      ((([("event_descirption", "event_description")].lookup
        (if c = "event_description" then "event_descirption" else c))).getD
        (if c = "event_description" then "event_descirption" else c)) = c := by
    intro c hc
    by_cases hcase : c = "event_description"
    · subst hcase
      simp [List.lookup]
    · have hne : c ≠ "event_descirption" := fun h => htypo (h ▸ hc)
      rw [if_neg hcase]
      have hb : (c == "event_descirption") = false := beq_eq_false_iff_ne.mpr hne
      simp [List.lookup, hb]
  have h2 : load_normalize (relabelCols df "event_description" "event_descirption") = df := by
    unfold load_normalize
    have hf : COLUMN_ALIASES.filter (fun p => decide (p.1 ∈
        (relabelCols df "event_description" "event_descirption").cols)) =
        [("event_descirption", "event_description")] := by
      simp only [COLUMN_ALIASES, List.filter_cons, List.filter_nil]
      rw [if_pos (by simpa using hmem)]
    rw [hf, if_neg (by simp)]
    cases df with
    | mk cols rows =>
      simp only [relabelCols, List.map_map, DataFrame.mk.injEq, and_true]
      calc cols.map _ = cols.map id := List.map_congr_left hpoint
        _ = cols := List.map_id cols
  have hok : validate_columns df = Except.ok () := by
    unfold validate_columns
    have hf : EXPECTED_COLUMNS.filter (fun c => decide (c ∉ df.cols)) = [] := by
      rw [List.filter_eq_nil_iff]
      intro c hc
      simp [hcols c hc]
    rw [hf]
    rfl
  exact ⟨h2, h1, by rw [h2]; exact hok, by rw [h1]; exact hok, by rw [h1, h2]⟩

/-- Witness for C8: instantiated at the full-schema example table. -/
theorem alias_equivalence_witness :
    load_normalize (relabelCols exTable "event_description" "event_descirption") =
      exTable ∧
    validate_columns
      (load_normalize (relabelCols exTable "event_description" "event_descirption")) =
      Except.ok () ∧
    get_warnings (coerce_numeric
      (load_normalize (relabelCols exTable "event_description" "event_descirption"))) =
      get_warnings (coerce_numeric (load_normalize exTable)) :=
  ⟨(alias_equivalence exTable (by decide) (by decide)).1,
   (alias_equivalence exTable (by decide) (by decide)).2.2.1,
   (alias_equivalence exTable (by decide) (by decide)).2.2.2.2⟩

/-- Coercing one cell twice is the same as coercing it once. -/
theorem toNumericCell_idem (x : Cell) :
    toNumericCell (toNumericCell x) = toNumericCell x := by
  cases x with
  | num q => rfl
  | missing => rfl
  | str s =>
    simp only [toNumericCell]
    cases h : parseNumString s <;> rfl

/-- A coerced cell is always numeric or missing. -/
theorem isNumOrMissing_toNumericCell (x : Cell) :
    isNumOrMissing (toNumericCell x) = true := by
  cases x with
  | num q => rfl
  | missing => rfl
  | str s =>
    simp only [toNumericCell]
    cases h : parseNumString s <;> rfl

/-- Coercing one column does not change the column list. -/
theorem coerceCol_cols (df : DataFrame) (c : String) :
    (coerceCol df c).cols = df.cols := by
  unfold coerceCol
  split <;> rfl

/-- Coercing one column does not change the number of rows. -/
theorem coerceCol_rows_length (df : DataFrame) (c : String) :
    (coerceCol df c).rows.length = df.rows.length := by
  unfold coerceCol
  split <;> simp

/-- Coercing one column keeps the table rectangular. -/
theorem coerceCol_wf (df : DataFrame) (c : String) (h : Wf df) :
    Wf (coerceCol df c) := by
  unfold coerceCol
  split
  · intro row hrow
    rcases List.mem_map.mp hrow with ⟨r, hr, rfl⟩
    simpa using h r hr
  · exact h

/-- Cell-level effect of coercing column `c`: the cell of `col` is
coerced exactly when `col = c` and the column is present; every other
cell is untouched. -/
theorem dfCell_coerceCol (df : DataFrame)
    (c col : String) (i : Nat) :
    dfCell (coerceCol df c) i col =
      if col = c ∧ c ∈ df.cols then toNumericCell (dfCell df i col)
      else dfCell df i col := by
  by_cases hc : c ∈ df.cols
  · unfold coerceCol
    rw [if_pos hc]
    by_cases hi : i < df.rows.length
    · have hrow : (df.rows.map (fun row =>
          row.set (df.cols.indexOf c)
            (toNumericCell (row.getD (df.cols.indexOf c) Cell.missing)))).getD i [] =
          (df.rows.getD i []).set (df.cols.indexOf c)
            (toNumericCell ((df.rows.getD i []).getD (df.cols.indexOf c) Cell.missing)) := by
        rw [List.getD_eq_getElem?_getD, List.getElem?_map,
          List.getD_eq_getElem?_getD, List.getElem?_eq_getElem hi]
        rfl
      unfold dfCell
      simp only [hrow]
      by_cases hcol : col = c
      · subst hcol
        rw [if_pos ⟨rfl, hc⟩]
        set r := df.rows.getD i [] with hr
        by_cases hlen : df.cols.indexOf col < r.length
        · rw [List.getD_eq_getElem?_getD, List.getElem?_set_self hlen]
          rw [List.getD_eq_getElem?_getD]
          rfl
        · have h1 : (r.set (df.cols.indexOf col)
              (toNumericCell (r.getD (df.cols.indexOf col) Cell.missing))).getD
              (df.cols.indexOf col) Cell.missing = Cell.missing := by
            rw [List.getD_eq_getElem?_getD, List.getElem?_eq_none]
            · rfl
            · simpa using Nat.le_of_not_lt hlen
          have h2 : r.getD (df.cols.indexOf col) Cell.missing = Cell.missing := by
            rw [List.getD_eq_getElem?_getD, List.getElem?_eq_none]
            · rfl
            · exact Nat.le_of_not_lt hlen
          rw [h1, h2]
          rfl
      · rw [if_neg (fun hand => hcol hand.1)]
        have hne : df.cols.indexOf col ≠ df.cols.indexOf c := by
          by_cases hcolmem : col ∈ df.cols
          · intro heq
            exact hcol ((List.indexOf_inj hcolmem hc).mp heq)
          · intro heq
            have h1 : df.cols.indexOf col = df.cols.length :=
              List.indexOf_eq_length.mpr hcolmem
            have h2 : df.cols.indexOf c < df.cols.length :=
              List.indexOf_lt_length.mpr hc
            omega
        rw [List.getD_eq_getElem?_getD, List.getElem?_set_ne (Ne.symm hne),
          List.getD_eq_getElem?_getD, List.getD_eq_getElem?_getD]
    · have h1 : (df.rows.map (fun row =>
          row.set (df.cols.indexOf c)
            (toNumericCell (row.getD (df.cols.indexOf c) Cell.missing)))).getD i [] = [] := by
        rw [List.getD_eq_getElem?_getD, List.getElem?_eq_none]
        · rfl
        · simpa using Nat.le_of_not_lt hi
      have h2 : df.rows.getD i [] = [] := by
        rw [List.getD_eq_getElem?_getD, List.getElem?_eq_none]
        · rfl
        · exact Nat.le_of_not_lt hi
      unfold dfCell
      rw [h1, h2]
      split <;> rfl
  · unfold coerceCol
    rw [if_neg hc]
    rw [if_neg (fun hand => hc hand.2)]

/-- Column list through the whole coercion fold. -/
theorem foldl_coerceCol_cols (L : List String) (df : DataFrame) :
    (L.foldl coerceCol df).cols = df.cols := by
  induction L generalizing df with
  | nil => rfl
  | cons c L ih => rw [List.foldl_cons, ih, coerceCol_cols]

/-- Row count through the whole coercion fold. -/
theorem foldl_coerceCol_rows_length (L : List String) (df : DataFrame) :
    (L.foldl coerceCol df).rows.length = df.rows.length := by
  induction L generalizing df with
  | nil => rfl
  | cons c L ih => rw [List.foldl_cons, ih, coerceCol_rows_length]

/-- Cell-level effect of the whole coercion fold. -/
theorem dfCell_foldl_coerceCol (L : List String) (df : DataFrame)
    (col : String) (i : Nat) :
    dfCell (L.foldl coerceCol df) i col =
      if col ∈ L ∧ col ∈ df.cols then toNumericCell (dfCell df i col)
      else dfCell df i col := by
  induction L generalizing df with
  | nil =>
    rw [if_neg (fun hand => (List.not_mem_nil col) hand.1)]
    rfl
  | cons c L ih =>
    rw [List.foldl_cons]
    rw [ih (coerceCol df c), coerceCol_cols,
      dfCell_coerceCol df c col i]
    by_cases heq : col = c
    · subst heq
      by_cases hL : col ∈ L <;> by_cases hmem : col ∈ df.cols <;>
        simp [hL, hmem, toNumericCell_idem]
    · by_cases hL : col ∈ L <;> by_cases hmem : col ∈ df.cols <;>
        simp [hL, hmem, heq, toNumericCell_idem]

/-- Rectangularity through the whole coercion fold. -/
theorem foldl_coerceCol_wf (L : List String) (df : DataFrame)
    (hwf : Wf df) : Wf (L.foldl coerceCol df) := by
  induction L generalizing df with
  | nil => exact hwf
  | cons c L ih => exact ih (coerceCol df c) (coerceCol_wf df c hwf)

/-- In a rectangular table the cell of an absent column is missing. -/
theorem dfCell_absent (df : DataFrame) (hwf : Wf df) (col : String)
    (hcol : col ∉ df.cols) (i : Nat) : dfCell df i col = Cell.missing := by
  unfold dfCell
  rw [List.indexOf_eq_length.mpr hcol]
  by_cases hi : i < df.rows.length
  · have hrowmem : df.rows.getD i [] ∈ df.rows := by
      rw [List.getD_eq_getElem?_getD, List.getElem?_eq_getElem hi]
      exact List.getElem_mem hi
    have hlen : (df.rows.getD i []).length = df.cols.length := hwf _ hrowmem
    rw [List.getD_eq_getElem?_getD, List.getElem?_eq_none (by omega)]
    rfl
  · have hrow : df.rows.getD i [] = [] := by
      rw [List.getD_eq_getElem?_getD,
        List.getElem?_eq_none (Nat.le_of_not_lt hi)]
      rfl
    rw [hrow]
    rfl

/-- C9: `coerce_numeric` is total and returns a table with the same
columns and row count in which every cell of every present numeric
column has been coerced cell-wise (numeric or missing — unparseable
cells degrade to missing), while cells of columns outside
`NUMERIC_COLUMNS` are unchanged; rectangularity is preserved. -/
theorem coerce_numeric_spec (df : DataFrame) (hwf : Wf df) :
    (coerce_numeric df).cols = df.cols ∧
    (coerce_numeric df).rows.length = df.rows.length ∧
    Wf (coerce_numeric df) ∧
    (∀ col ∈ NUMERIC_COLUMNS, ∀ i,
      col ∈ df.cols →
        dfCell (coerce_numeric df) i col = toNumericCell (dfCell df i col)) ∧
    (∀ col ∈ NUMERIC_COLUMNS, CoercedCol (coerce_numeric df) col) ∧
    (∀ col, col ∉ NUMERIC_COLUMNS → ∀ i,
      dfCell (coerce_numeric df) i col = dfCell df i col) := by
  refine ⟨foldl_coerceCol_cols NUMERIC_COLUMNS df,
    foldl_coerceCol_rows_length NUMERIC_COLUMNS df,
    foldl_coerceCol_wf NUMERIC_COLUMNS df hwf, ?_, ?_, ?_⟩
  · intro col hcol i hpresent
    unfold coerce_numeric
    rw [dfCell_foldl_coerceCol NUMERIC_COLUMNS df col i,
      if_pos ⟨hcol, hpresent⟩]
  · intro col hcol i hi
    unfold coerce_numeric
    rw [dfCell_foldl_coerceCol NUMERIC_COLUMNS df col i]
    by_cases hpresent : col ∈ df.cols
    · rw [if_pos ⟨hcol, hpresent⟩]
      exact isNumOrMissing_toNumericCell _
    · rw [if_neg (fun hand => hpresent hand.2)]
      rw [dfCell_absent df hwf col hpresent i]
      rfl
  · intro col hcol i
    unfold coerce_numeric
    rw [dfCell_foldl_coerceCol NUMERIC_COLUMNS df col i,
      if_neg (fun hand => hcol hand.1)]

/-- Witness for C9: the full conclusion instantiated at the example
table, whose column list is duplicate-free and which is rectangular. -/
theorem coerce_numeric_spec_witness :
    (coerce_numeric exTable).cols = exTable.cols ∧
    (coerce_numeric exTable).rows.length = exTable.rows.length ∧
    Wf (coerce_numeric exTable) ∧
    (∀ col ∈ NUMERIC_COLUMNS, ∀ i,
      col ∈ exTable.cols →
        dfCell (coerce_numeric exTable) i col =
          toNumericCell (dfCell exTable i col)) ∧
    (∀ col ∈ NUMERIC_COLUMNS, CoercedCol (coerce_numeric exTable) col) ∧
    (∀ col, col ∉ NUMERIC_COLUMNS → ∀ i,
      dfCell (coerce_numeric exTable) i col = dfCell exTable i col) :=
  coerce_numeric_spec exTable (by decide)

/-- A max-fold dominates its seed and every list element. -/
theorem foldl_max_ge (l : List ℚ) (x : ℚ) :
    x ≤ l.foldl max x ∧ ∀ y ∈ l, y ≤ l.foldl max x := by
  induction l generalizing x with
  | nil => exact ⟨le_refl x, by intro y hy; exact absurd hy (List.not_mem_nil y)⟩
  | cons z zs ih =>
    rw [List.foldl_cons]
    rcases ih (max x z) with ⟨h1, h2⟩
    refine ⟨le_trans (le_max_left x z) h1, ?_⟩
    intro y hy
    rcases List.mem_cons.mp hy with rfl | hy2
    · exact le_trans (le_max_right x y) h1
    · exact h2 y hy2

/-- A max-fold returns its seed or a list element. -/
theorem foldl_max_mem (l : List ℚ) (x : ℚ) :
    l.foldl max x = x ∨ l.foldl max x ∈ l := by
  induction l generalizing x with
  | nil => exact Or.inl rfl
  | cons z zs ih =>
    rw [List.foldl_cons]
    rcases ih (max x z) with h | h
    · rcases max_choice x z with hx | hz
      · exact Or.inl (by rw [h, hx])
      · exact Or.inr (by rw [h, hz]; exact List.mem_cons_self z zs)
    · exact Or.inr (List.mem_cons_of_mem z h)

/-- A min-fold is below its seed and every list element. -/
theorem foldl_min_le (l : List ℚ) (x : ℚ) :
    l.foldl min x ≤ x ∧ ∀ y ∈ l, l.foldl min x ≤ y := by
  induction l generalizing x with
  | nil => exact ⟨le_refl x, by intro y hy; exact absurd hy (List.not_mem_nil y)⟩
  | cons z zs ih =>
    rw [List.foldl_cons]
    rcases ih (min x z) with ⟨h1, h2⟩
    refine ⟨le_trans h1 (min_le_left x z), ?_⟩
    intro y hy
    rcases List.mem_cons.mp hy with rfl | hy2
    · exact le_trans h1 (min_le_right x y)
    · exact h2 y hy2

/-- A min-fold returns its seed or a list element. -/
theorem foldl_min_mem (l : List ℚ) (x : ℚ) :
    l.foldl min x = x ∨ l.foldl min x ∈ l := by
  induction l generalizing x with
  | nil => exact Or.inl rfl
  | cons z zs ih =>
    rw [List.foldl_cons]
    rcases ih (min x z) with h | h
    · rcases min_choice x z with hx | hz
      · exact Or.inl (by rw [h, hx])
      · exact Or.inr (by rw [h, hz]; exact List.mem_cons_self z zs)
    · exact Or.inr (List.mem_cons_of_mem z h)

/-- On a non-empty list, `listMax` is an element and an upper bound:
exactly `s.max()`. -/
theorem listMax_spec (v : ℚ) (vs : List ℚ) :
    listMax (v :: vs) ∈ v :: vs ∧ ∀ y ∈ v :: vs, y ≤ listMax (v :: vs) := by
  simp only [listMax]
  constructor
  · rcases foldl_max_mem vs v with h | h
    · rw [h]; exact List.mem_cons_self v vs
    · exact List.mem_cons_of_mem v h
  · intro y hy
    rcases List.mem_cons.mp hy with rfl | hy2
    · exact (foldl_max_ge vs y).1
    · exact (foldl_max_ge vs v).2 y hy2

/-- On a non-empty list, `listMin` is an element and a lower bound:
exactly `s.min()`. -/
theorem listMin_spec (v : ℚ) (vs : List ℚ) :
    listMin (v :: vs) ∈ v :: vs ∧ ∀ y ∈ v :: vs, listMin (v :: vs) ≤ y := by
  simp only [listMin]
  constructor
  · rcases foldl_min_mem vs v with h | h
    · rw [h]; exact List.mem_cons_self v vs
    · exact List.mem_cons_of_mem v h
  · intro y hy
    rcases List.mem_cons.mp hy with rfl | hy2
    · exact (foldl_min_le vs y).1
    · exact (foldl_min_le vs v).2 y hy2

/-- C3: on a coerced table with a speed column, `build_speed_stats`
returns the all-null record with count 0 when no non-missing speed
value exists, and otherwise the count of non-missing values together
with their mean, greatest and least value, each rounded to 2 decimal
places. -/
theorem speed_stats_spec (df : DataFrame)
    (hcol : "speed_kmh" ∈ df.cols)
    (hC : CoercedCol df "speed_kmh") :
    ∃ st, build_speed_stats df = some st ∧
      (numEntries (getSeries df "speed_kmh") = [] →
        st = { mean_kmh := none, max_kmh := none, min_kmh := none,
               count := 0 }) ∧
      (∀ v vs, (numEntries (getSeries df "speed_kmh")).map Prod.snd = v :: vs →
        st.count = (v :: vs).length ∧
        st.mean_kmh = some (round2 ((v :: vs).sum / ((v :: vs).length : ℚ))) ∧
        (∃ M ∈ v :: vs, (∀ y ∈ v :: vs, y ≤ M) ∧
          st.max_kmh = some (round2 M)) ∧
        (∃ m ∈ v :: vs, (∀ y ∈ v :: vs, m ≤ y) ∧
          st.min_kmh = some (round2 m))) := by
  unfold build_speed_stats
  rw [if_pos hcol]
  rcases hs : numEntries (getSeries df "speed_kmh") with _ | ⟨p, ps⟩
  · refine ⟨_, rfl, fun _ => rfl, ?_⟩
    intro v vs hmap
    exact absurd hmap (by simp)
  · refine ⟨_, rfl, fun h => absurd h (by simp), ?_⟩
    intro v vs hmap
    refine ⟨?_, ?_, ?_, ?_⟩
    · show (p :: ps).length = (v :: vs).length
      rw [← hmap, List.length_map]
    · show some (round2 (listMean ((p :: ps).map Prod.snd))) = _
      rw [hmap]
      rfl
    · refine ⟨listMax (v :: vs), (listMax_spec v vs).1, (listMax_spec v vs).2, ?_⟩
      show some (round2 (listMax ((p :: ps).map Prod.snd))) = _
      rw [hmap]
    · refine ⟨listMin (v :: vs), (listMin_spec v vs).1, (listMin_spec v vs).2, ?_⟩
      show some (round2 (listMin ((p :: ps).map Prod.snd))) = _
      rw [hmap]

/-- Witness for C3: the full conclusion instantiated at the coerced
example table. -/
theorem speed_stats_spec_witness :
    ∃ st, build_speed_stats exTable = some st ∧
      (numEntries (getSeries exTable "speed_kmh") = [] →
        st = { mean_kmh := none, max_kmh := none, min_kmh := none,
               count := 0 }) ∧
      (∀ v vs,
        (numEntries (getSeries exTable "speed_kmh")).map Prod.snd = v :: vs →
        st.count = (v :: vs).length ∧
        st.mean_kmh = some (round2 ((v :: vs).sum / ((v :: vs).length : ℚ))) ∧
        (∃ M ∈ v :: vs, (∀ y ∈ v :: vs, y ≤ M) ∧
          st.max_kmh = some (round2 M)) ∧
        (∃ m ∈ v :: vs, (∀ y ∈ v :: vs, m ≤ y) ∧
          st.min_kmh = some (round2 m))) :=
  speed_stats_spec exTable (by decide) (by decide)

/-- The summary's column names are the present, non-empty numeric
columns in declaration order (generalized over the column list). -/
theorem summary_filterMap_columns (df : DataFrame) (L : List String) :
    (L.filterMap (fun col =>
      if col ∈ df.cols then
        if (numEntries (getSeries df col)).isEmpty then none
        else some (SummaryRow.mk col
          (round2 (listMean ((numEntries (getSeries df col)).map Prod.snd)))
          (round2 (listMax ((numEntries (getSeries df col)).map Prod.snd)))
          (round2 (listMin ((numEntries (getSeries df col)).map Prod.snd))))
      else none)).map (fun r => r.column) =
    L.filter (fun c =>
      decide (c ∈ df.cols) && !(numEntries (getSeries df c)).isEmpty) := by
  induction L with
  | nil => rfl
  | cons c L ih =>
    rw [List.filterMap_cons, List.filter_cons]
    by_cases h1 : c ∈ df.cols
    · by_cases h2 : (numEntries (getSeries df c)).isEmpty
      · rw [if_pos h1, if_pos h2,
          show (decide (c ∈ df.cols) &&
            !(numEntries (getSeries df c)).isEmpty) = false by simp [h1, h2]]
        exact ih
      · rw [if_pos h1, if_neg h2,
          show (decide (c ∈ df.cols) &&
            !(numEntries (getSeries df c)).isEmpty) = true by simp [h1, h2]]
        exact congrArg (List.cons c) ih
    · rw [if_neg h1,
        show (decide (c ∈ df.cols) &&
          !(numEntries (getSeries df c)).isEmpty) = false by simp [h1]]
      exact ih

/-- C4: on a coerced table, `numeric_summary_table` emits exactly one
row per numeric column that is present with at least one non-missing
value, in `NUMERIC_COLUMNS` declaration order (so skipped columns are
exactly those absent or all-missing); each emitted row carries the
2-decimal-rounded mean, greatest and least of the column's non-missing
values; and the output is unchanged under any reordering of the input's
columns (it depends only on per-column content and membership). -/
theorem numeric_summary_spec (df : DataFrame) (hC : Coerced df) :
    (numeric_summary_table df).map (fun r => r.column) =
      NUMERIC_COLUMNS.filter (fun c =>
        decide (c ∈ df.cols) && !(numEntries (getSeries df c)).isEmpty) ∧
    ((numeric_summary_table df).map (fun r => r.column)).Nodup ∧
    (∀ r ∈ numeric_summary_table df,
      ∃ v vs, (numEntries (getSeries df r.column)).map Prod.snd = v :: vs ∧
        r.mean = round2 ((v :: vs).sum / ((v :: vs).length : ℚ)) ∧
        (∃ M ∈ v :: vs, (∀ y ∈ v :: vs, y ≤ M) ∧ r.max = round2 M) ∧
        (∃ m ∈ v :: vs, (∀ y ∈ v :: vs, m ≤ y) ∧ r.min = round2 m)) ∧
    (∀ df₂, (∀ col ∈ NUMERIC_COLUMNS,
        (col ∈ df₂.cols ↔ col ∈ df.cols) ∧
        numEntries (getSeries df₂ col) = numEntries (getSeries df col)) →
      numeric_summary_table df₂ = numeric_summary_table df) := by
  have hcolseq : (numeric_summary_table df).map (fun r => r.column) =
      NUMERIC_COLUMNS.filter (fun c =>
        decide (c ∈ df.cols) && !(numEntries (getSeries df c)).isEmpty) :=
    summary_filterMap_columns df NUMERIC_COLUMNS
  refine ⟨hcolseq, ?_, ?_, ?_⟩
  · rw [hcolseq]
    exact List.Nodup.filter _ (by decide)
  · intro r hr
    unfold numeric_summary_table at hr
    rcases List.mem_filterMap.mp hr with ⟨col, _, heq⟩
    by_cases h1 : col ∈ df.cols
    · rw [if_pos h1] at heq
      by_cases h2 : (numEntries (getSeries df col)).isEmpty
      · rw [if_pos h2] at heq
        exact absurd heq (by simp)
      · rw [if_neg h2] at heq
        rcases hs : numEntries (getSeries df col) with _ | ⟨p, ps⟩
        · rw [hs] at h2
          exact absurd rfl h2
        · rw [hs] at heq
          have hr2 : r = SummaryRow.mk col
              (round2 (listMean ((p :: ps).map Prod.snd)))
              (round2 (listMax ((p :: ps).map Prod.snd)))
              (round2 (listMin ((p :: ps).map Prod.snd))) :=
            (Option.some.inj heq).symm
          subst hr2
          refine ⟨p.2, ps.map Prod.snd, by rw [hs]; rfl, by rfl, ?_, ?_⟩
          · exact ⟨listMax (p.2 :: ps.map Prod.snd),
              (listMax_spec p.2 (ps.map Prod.snd)).1,
              (listMax_spec p.2 (ps.map Prod.snd)).2, rfl⟩
          · exact ⟨listMin (p.2 :: ps.map Prod.snd),
              (listMin_spec p.2 (ps.map Prod.snd)).1,
              (listMin_spec p.2 (ps.map Prod.snd)).2, rfl⟩
    · rw [if_neg h1] at heq
      exact absurd heq (by simp)
  · intro df₂ hsame
    unfold numeric_summary_table
    apply List.filterMap_congr
    intro col hcol
    rcases hsame col hcol with ⟨hmem, hentries⟩
    by_cases h1 : col ∈ df.cols
    · rw [if_pos h1, if_pos (hmem.mpr h1), hentries]
    · rw [if_neg h1, if_neg (fun h => h1 (hmem.mp h))]

/-- Witness for C4: the full conclusion instantiated at the coerced
example table. -/
theorem numeric_summary_spec_witness :
    (numeric_summary_table exTable).map (fun r => r.column) =
      NUMERIC_COLUMNS.filter (fun c =>
        decide (c ∈ exTable.cols) &&
          !(numEntries (getSeries exTable c)).isEmpty) ∧
    ((numeric_summary_table exTable).map (fun r => r.column)).Nodup ∧
    (∀ r ∈ numeric_summary_table exTable,
      ∃ v vs, (numEntries (getSeries exTable r.column)).map Prod.snd = v :: vs ∧
        r.mean = round2 ((v :: vs).sum / ((v :: vs).length : ℚ)) ∧
        (∃ M ∈ v :: vs, (∀ y ∈ v :: vs, y ≤ M) ∧ r.max = round2 M) ∧
        (∃ m ∈ v :: vs, (∀ y ∈ v :: vs, m ≤ y) ∧ r.min = round2 m)) ∧
    (∀ df₂, (∀ col ∈ NUMERIC_COLUMNS,
        (col ∈ df₂.cols ↔ col ∈ exTable.cols) ∧
        numEntries (getSeries df₂ col) = numEntries (getSeries exTable col)) →
      numeric_summary_table df₂ = numeric_summary_table exTable) :=
  numeric_summary_spec exTable (by decide)

/-- Membership in the dedup accumulator loop: an element survives iff
it occurs in the input and was not already seen. -/
theorem mem_dedupFirstAux {α : Type} [DecidableEq α] (l : List α) :
    ∀ (seen : List α) (x : α),
      x ∈ dedupFirstAux seen l ↔ x ∈ l ∧ x ∉ seen := by
  induction l with
  | nil => intro seen x; simp [dedupFirstAux]
  | cons y ys ih =>
    intro seen x
    unfold dedupFirstAux
    by_cases hy : y ∈ seen
    · rw [if_pos hy, ih seen x]
      constructor
      · rintro ⟨h1, h2⟩
        exact ⟨List.mem_cons_of_mem y h1, h2⟩
      · rintro ⟨h1, h2⟩
        rcases List.mem_cons.mp h1 with rfl | h3
        · exact absurd hy h2
        · exact ⟨h3, h2⟩
    · rw [if_neg hy]
      constructor
      · intro hx
        rcases List.mem_cons.mp hx with rfl | h3
        · exact ⟨List.mem_cons_self x ys, hy⟩
        · rcases (ih (y :: seen) x).mp h3 with ⟨h4, h5⟩
          exact ⟨List.mem_cons_of_mem y h4,
            fun h => h5 (List.mem_cons_of_mem y h)⟩
      · rintro ⟨h1, h2⟩
        rcases List.mem_cons.mp h1 with rfl | h3
        · exact List.mem_cons_self x _
        · by_cases hxy : x = y
          · exact hxy ▸ List.mem_cons_self y _
          · exact List.mem_cons_of_mem y ((ih (y :: seen) x).mpr
              ⟨h3, fun h => by
                rcases List.mem_cons.mp h with h4 | h5
                · exact hxy h4
                · exact h2 h5⟩)

/-- The dedup accumulator loop emits no duplicates. -/
theorem nodup_dedupFirstAux {α : Type} [DecidableEq α] (l : List α) :
    ∀ seen : List α, (dedupFirstAux seen l).Nodup := by
  induction l with
  | nil => intro seen; exact List.nodup_nil
  | cons y ys ih =>
    intro seen
    unfold dedupFirstAux
    by_cases hy : y ∈ seen
    · rw [if_pos hy]
      exact ih seen
    · rw [if_neg hy]
      refine List.nodup_cons.mpr ⟨?_, ih (y :: seen)⟩
      intro hmem
      exact ((mem_dedupFirstAux ys (y :: seen) y).mp hmem).2
        (List.mem_cons_self y seen)

/-- `firstIdx` of the head. -/
theorem firstIdx_cons_self {α : Type} [DecidableEq α] (y : α)
    (ys : List α) : firstIdx (y :: ys) y = 0 := by
  simp [firstIdx]

/-- `firstIdx` skips a head different from the sought element. -/
theorem firstIdx_cons_ne {α : Type} [DecidableEq α] (y x : α)
    (ys : List α) (hne : y ≠ x) :
    firstIdx (y :: ys) x = firstIdx ys x + 1 := by
  simp [firstIdx, hne]

/-- The dedup accumulator loop lists survivors in the order of their
first occurrence: positions in the output are strictly increasing as
positions of first occurrence in the input. -/
theorem pairwise_firstIdx_dedupFirstAux {α : Type} [DecidableEq α]
    (l : List α) :
    ∀ seen : List α, (dedupFirstAux seen l).Pairwise
      (fun a b => firstIdx l a < firstIdx l b) := by
  induction l with
  | nil => intro seen; exact List.Pairwise.nil
  | cons y ys ih =>
    intro seen
    unfold dedupFirstAux
    by_cases hy : y ∈ seen
    · rw [if_pos hy]
      refine List.Pairwise.imp_of_mem ?_ (ih seen)
      intro a b ha hb hlt
      have hane : y ≠ a := fun h =>
        ((mem_dedupFirstAux ys seen a).mp ha).2 (h ▸ hy)
      have hbne : y ≠ b := fun h =>
        ((mem_dedupFirstAux ys seen b).mp hb).2 (h ▸ hy)
      rw [firstIdx_cons_ne y a ys hane, firstIdx_cons_ne y b ys hbne]
      omega
    · rw [if_neg hy]
      refine List.pairwise_cons.mpr ⟨?_, ?_⟩
      · intro b hb
        have hbne : y ≠ b := fun h =>
          ((mem_dedupFirstAux ys (y :: seen) b).mp hb).2
            (h ▸ List.mem_cons_self y seen)
        rw [firstIdx_cons_self, firstIdx_cons_ne y b ys hbne]
        omega
      · refine List.Pairwise.imp_of_mem ?_ (ih (y :: seen))
        intro a b ha hb hlt
        have hane : y ≠ a := fun h =>
          ((mem_dedupFirstAux ys (y :: seen) a).mp ha).2
            (h ▸ List.mem_cons_self y seen)
        have hbne : y ≠ b := fun h =>
          ((mem_dedupFirstAux ys (y :: seen) b).mp hb).2
            (h ▸ List.mem_cons_self y seen)
        rw [firstIdx_cons_ne y a ys hane, firstIdx_cons_ne y b ys hbne]
        omega

/-- C5: `get_warnings` returns the empty frame when the event-type
column is absent; otherwise its records are exactly the (timestamp,
event-type, event-description) projections of the rows whose
upper-cased event-type equals "WARNING" exactly, with duplicate
projections collapsed to a single record, ordered by position of first
occurrence among the qualifying rows. -/
theorem warnings_spec (df : DataFrame) :
    ("event_type" ∉ df.cols →
      get_warnings df = { cols := [], rows := [] }) ∧
    ("event_type" ∈ df.cols →
      (get_warnings df).rows.Nodup ∧
      (∀ w, w ∈ (get_warnings df).rows ↔
        ∃ i < df.rows.length,
          upperStr (cellToString (dfCell df i "event_type")) = "WARNING" ∧
          w = warnRow df i) ∧
      (get_warnings df).rows.Pairwise
        (fun a b => firstIdx (warnCandidates df) a <
          firstIdx (warnCandidates df) b)) := by
  constructor
  · intro h
    unfold get_warnings
    rw [if_neg h]
  · intro h
    unfold get_warnings
    rw [if_pos h]
    refine ⟨nodup_dedupFirstAux _ [], ?_,
      pairwise_firstIdx_dedupFirstAux _ []⟩
    intro w
    rw [show dedupFirst (warnCandidates df) = dedupFirstAux [] (warnCandidates df) from rfl,
      mem_dedupFirstAux (warnCandidates df) [] w]
    simp only [List.not_mem_nil, not_false_iff, and_true]
    unfold warnCandidates
    constructor
    · intro hw
      rcases List.mem_map.mp hw with ⟨i, hi, rfl⟩
      rcases List.mem_filter.mp hi with ⟨hir, hmask⟩
      refine ⟨i, List.mem_range.mp hir, ?_, rfl⟩
      have := of_decide_eq_true hmask
      unfold warnMask at hmask
      exact eq_of_beq hmask
    · rintro ⟨i, hi, hup, rfl⟩
      refine List.mem_map.mpr ⟨i, ?_, rfl⟩
      refine List.mem_filter.mpr ⟨List.mem_range.mpr hi, ?_⟩
      unfold warnMask
      exact beq_iff_eq.mpr hup

/-- Witness for C5: the absent-column case at `exBare` and the full
present-column case at the example table. -/
theorem warnings_spec_witness :
    get_warnings exBare = { cols := [], rows := [] } ∧
    ((get_warnings exTable).rows.Nodup ∧
      (∀ w, w ∈ (get_warnings exTable).rows ↔
        ∃ i < exTable.rows.length,
          upperStr (cellToString (dfCell exTable i "event_type")) =
            "WARNING" ∧
          w = warnRow exTable i) ∧
      (get_warnings exTable).rows.Pairwise
        (fun a b => firstIdx (warnCandidates exTable) a <
          firstIdx (warnCandidates exTable) b)) :=
  ⟨(warnings_spec exBare).1 (by decide),
   (warnings_spec exTable).2 (by decide)⟩

/-- Folding a function of the element only over an enumerated list
forgets the counter. -/
theorem enumFrom_flatMap_snd {α β : Type} (F : α → List β) :
    ∀ (n : Nat) (l : List α),
      (List.enumFrom n l).flatMap (fun p => F p.2) = l.flatMap F := by
  intro n l
  induction l generalizing n with
  | nil => rfl
  | cons x xs ih => simp [List.enumFrom, ih]

/-- The dropna'd numeric series as a filterMap over the row indices. -/
theorem numEntries_getSeries (df : DataFrame) (col : String) :
    numEntries (getSeries df col) =
      (List.range df.rows.length).filterMap (fun i =>
        match dfCell df i col with
        | Cell.num q => some (i, q)
        | _ => none) := by
  unfold getSeries numEntries
  rw [List.filterMap_map]
  rfl

/-- The per-bound breach list, re-expressed as a scan over row indices
(generalized over the index list). -/
theorem boundBreaches_filterMap (df : DataFrame) (col lt : String)
    (lv : ℚ) :
    ∀ l : List Nat,
      ((l.filterMap (fun i =>
        match dfCell df i col with
        | Cell.num q => some (i, q)
        | _ => none)).filter (fun p => boundHit lt lv p.2)).map
          (mkBreach df col lt lv) =
      (l.filter (fun i => cellHit df col lt lv i)).map
        (fun ri => mkBreach df col lt lv (ri, cellVal df ri col)) := by
  intro l
  induction l with
  | nil => rfl
  | cons i l ih =>
    rw [List.filterMap_cons, List.filter_cons]
    cases h : dfCell df i col with
    | num q =>
      rw [show cellHit df col lt lv i = boundHit lt lv q by
        unfold cellHit; rw [h]]
      by_cases hb : boundHit lt lv q
      · rw [if_pos hb, List.filter_cons]
        simp only [hb, if_true, List.map_cons, ih]
        rw [show cellVal df i col = q by unfold cellVal; rw [h]]
      · rw [if_neg hb, List.filter_cons]
        simp only [hb, Bool.false_eq_true, if_false, ih]
    | str s =>
      rw [show cellHit df col lt lv i = false by unfold cellHit; rw [h],
        if_neg (by simp), ih]
    | missing =>
      rw [show cellHit df col lt lv i = false by unfold cellHit; rw [h],
        if_neg (by simp), ih]

/-- The per-column loop body, re-expressed by bound (in declaration
order) and breaching row (ascending). -/
theorem colBreaches_spec (df : DataFrame) (col : String)
    (limits : List (String × ℚ)) :
    colBreaches df col limits =
      if col ∈ df.cols then
        limits.flatMap (fun b => (specBoundRows df col b.1 b.2).map
          (fun ri => mkBreach df col b.1 b.2 (ri, cellVal df ri col)))
      else [] := by
  rw [colBreaches_eq]
  by_cases h : col ∈ df.cols
  · rw [if_pos h, if_pos h]
    apply List.flatMap_congr
    intro b _
    unfold boundBreaches specBoundRows
    rw [numEntries_getSeries]
    exact boundBreaches_filterMap df col b.1 b.2 (List.range df.rows.length)
  · rw [if_neg h, if_neg h]

/-- The full breach list is the tag-stripped spec-ordered breach
list. -/
theorem breaches_eq_spec_map (df : DataFrame) :
    get_threshold_breaches df = (specOrderedBreaches df).map Prod.snd := by
  rw [get_threshold_breaches_eq_flatMap]
  unfold specOrderedBreaches
  rw [show (List.enum THRESHOLDS) = List.enumFrom 0 THRESHOLDS from rfl]
  rw [← enumFrom_flatMap_snd (fun p => colBreaches df p.1 p.2) 0 THRESHOLDS,
    List.map_flatMap]
  apply List.flatMap_congr
  intro ce _
  rw [colBreaches_spec]
  by_cases h : ce.2.1 ∈ df.cols
  · rw [if_pos h, if_pos h, List.map_flatMap]
    apply Eq.symm
    rw [show (List.enum ce.2.2) = List.enumFrom 0 ce.2.2 from rfl,
      ← enumFrom_flatMap_snd (fun b => (specBoundRows df ce.2.1 b.1 b.2).map
        (fun ri => mkBreach df ce.2.1 b.1 b.2 (ri, cellVal df ri ce.2.1)))
        0 ce.2.2]
    apply List.flatMap_congr
    intro be _
    rw [List.map_map]
    rfl
  · rw [if_neg h, if_neg h]
    rfl

/-- Concatenating per-element blocks whose keys follow a strictly
increasing element key yields a pairwise-ordered list, provided each
block is internally ordered and the order follows the key across
blocks. -/
theorem pairwise_flatMap_keyed {α β : Type} (R : β → β → Prop)
    (key : β → Nat) (akey : α → Nat) :
    ∀ (l : List α) (f : α → List β),
      (∀ a ∈ l, ∀ b ∈ f a, key b = akey a) →
      l.Pairwise (fun a a2 => akey a < akey a2) →
      (∀ a ∈ l, ∀ a2 ∈ l, ∀ b ∈ f a, ∀ b2 ∈ f a2,
        key b < key b2 → R b b2) →
      (∀ a ∈ l, (f a).Pairwise R) →
      (l.flatMap f).Pairwise R := by
  intro l
  induction l with
  | nil => intro f _ _ _ _; exact List.Pairwise.nil
  | cons a l ih =>
    intro f hmem hsorted hR hinner
    rw [List.flatMap_cons]
    refine List.pairwise_append.mpr ⟨?_, ?_, ?_⟩
    · exact hinner a (List.mem_cons_self a l)
    · exact ih f (fun x hx => hmem x (List.mem_cons_of_mem a hx))
        (List.Pairwise.sublist (List.sublist_cons_self a l) hsorted)
        (fun x hx x2 hx2 => hR x (List.mem_cons_of_mem a hx)
          x2 (List.mem_cons_of_mem a hx2))
        (fun x hx => hinner x (List.mem_cons_of_mem a hx))
    · intro b hb b2 hb2
      rcases List.mem_flatMap.mp hb2 with ⟨a2, ha2, hb2f⟩
      apply hR a (List.mem_cons_self a l) a2 (List.mem_cons_of_mem a ha2)
        b hb b2 hb2f
      rw [hmem a (List.mem_cons_self a l) b hb,
        hmem a2 (List.mem_cons_of_mem a ha2) b2 hb2f]
      exact (List.pairwise_cons.mp hsorted).1 a2 ha2

/-- The spec-ordered breach list is strictly sorted in the lexicographic
(column position, bound position, row index) order. -/
theorem spec_breaches_sorted (df : DataFrame) :
    (specOrderedBreaches df).Pairwise (fun x y => tripLt x.1 y.1) := by
  unfold specOrderedBreaches
  apply pairwise_flatMap_keyed _ (fun x => x.1.1) (fun ce => ce.1)
  · intro ce _ b hb
    by_cases h : ce.2.1 ∈ df.cols
    · rw [if_pos h] at hb
      rcases List.mem_flatMap.mp hb with ⟨be, _, hbm⟩
      rcases List.mem_map.mp hbm with ⟨ri, _, rfl⟩
      rfl
    · rw [if_neg h] at hb
      exact absurd hb (List.not_mem_nil b)
  · decide
  · intro ce _ ce2 _ b hb b2 hb2 h
    exact Or.inl h
  · intro ce hce
    by_cases h : ce.2.1 ∈ df.cols
    · rw [if_pos h]
      apply pairwise_flatMap_keyed _ (fun x => x.1.2.1)
        (fun be => be.1)
      · intro be _ b hb
        rcases List.mem_map.mp hb with ⟨ri, _, rfl⟩
        rfl
      · simp only [THRESHOLDS] at hce
        fin_cases hce <;> decide
      · intro be _ be2 _ b hb b2 hb2 hlt
        rcases List.mem_map.mp hb with ⟨ri, _, rfl⟩
        rcases List.mem_map.mp hb2 with ⟨rj, _, rfl⟩
        exact Or.inr ⟨rfl, Or.inl hlt⟩
      · intro be _
        rw [List.pairwise_map]
        refine List.Pairwise.imp ?_
          (List.Pairwise.sublist (List.filter_sublist _)
            (List.pairwise_lt_range df.rows.length))
        intro ri rj hij
        exact Or.inr ⟨rfl, Or.inr ⟨rfl, hij⟩⟩
    · rw [if_neg h]
      exact List.Pairwise.nil

/-- Strict lexicographic tag order is irreflexive, so tag-sorted lists
carry distinct tags. -/
theorem tripLt_ne (x y : Nat × Nat × Nat) (h : tripLt x y) : x ≠ y := by
  rintro rfl
  unfold tripLt at h
  rcases h with h1 | ⟨_, h2 | ⟨_, h3⟩⟩
  · omega
  · omega
  · omega

/-- C2: on a coerced table, the breach sequence equals the spec-ordered
construction — Threshold Table entries in declaration order, within a
column the bounds in declaration order (max before min where both
exist), within a bound the breaching rows in ascending original row
order — and the (column position, bound position, row index) tags of
that construction are strictly increasing lexicographically, so every
breaching (row, column, bound) triple contributes exactly one record
and no deduplication collapses identical records from distinct rows. -/
theorem breach_report_order (df : DataFrame) (hC : Coerced df) :
    get_threshold_breaches df = (specOrderedBreaches df).map Prod.snd ∧
    (specOrderedBreaches df).Pairwise (fun x y => tripLt x.1 y.1) ∧
    ((specOrderedBreaches df).map Prod.fst).Nodup := by
  refine ⟨breaches_eq_spec_map df, spec_breaches_sorted df, ?_⟩
  have h2 : ((specOrderedBreaches df).map Prod.fst).Pairwise (· ≠ ·) :=
    List.pairwise_map.mpr ((spec_breaches_sorted df).imp
      (fun h => tripLt_ne _ _ h))
  exact h2

/-- Witness for C2: the full conclusion at the coerced example table
(which breaches several thresholds, including both rows for the
cabin-temperature minimum). -/
theorem breach_report_order_witness :
    Coerced exTable ∧
    get_threshold_breaches exTable =
      (specOrderedBreaches exTable).map Prod.snd ∧
    (specOrderedBreaches exTable).Pairwise (fun x y => tripLt x.1 y.1) ∧
    ((specOrderedBreaches exTable).map Prod.fst).Nodup :=
  ⟨by decide, breach_report_order exTable (by decide)⟩

end Telemetry
